import Mathlib

set_option maxHeartbeats 1000000
set_option maxRecDepth 4000

/-!
Shallow embedding of `src/spotdl/utils/formatter.py`.

Python strings are modelled as `List Char`; Python `int` as `Int`; fallible
operations return `Except PyErr _` or `Option _`.  Each definition mirrors the
source function of the same name.  Third-party helpers that the repository
calls but whose code is not part of the repository (python-slugify, pykakasi,
yt-dlp sanitize_filename, the Song record type) are modelled from the spec and
marked as such in their doc comments.
-/

/-- Errors surfaced by the formatter: the ValueError raised by format_query
when the extension is missing, the IndexError from song.artists[0] on an
empty artist list, and the RecursionError raised by create_file_name. -/
inductive PyErr where
  | missingExtension
  | indexError
  | recursionError
deriving DecidableEq, Repr

/-- Test whether pat is a leading block of s (prefix test used by the
substring scan and by replace). -/
def leadsWith : List Char → List Char → Bool
  | [], _ => true
  | _ :: _, [] => false
  | a :: ps, b :: ss => a == b && leadsWith ps ss

/-- Python substring membership: pat in s. -/
def containsSub (pat : List Char) : List Char → Bool
  | [] => leadsWith pat []
  | c :: t => leadsWith pat (c :: t) || containsSub pat t

/-- Python str.endswith for a literal pattern. -/
def closesWith (pat s : List Char) : Bool := leadsWith pat.reverse s.reverse

/-- Worker for Python str.replace: scans left to right; on a match it emits
rep and then skips the remaining matched characters (the skip counter).
Non-overlapping, replaces every occurrence, exactly like str.replace.  All
call sites in the source pass a non-empty pattern. -/
def replGo (pat rep : List Char) : List Char → Nat → List Char
  | [], _ => []
  | _ :: cs, Nat.succ k => replGo pat rep cs k
  | c :: cs, 0 =>
    if !pat.isEmpty && leadsWith pat (c :: cs) then
      rep ++ replGo pat rep cs (pat.length - 1)
    else
      c :: replGo pat rep cs 0

/-- Python str.replace(pat, rep). -/
def replaceSub (pat rep s : List Char) : List Char := replGo pat rep s 0

/-- Python str.split(sep) for a single-character separator: keeps empty
pieces, and the split of the empty string is one empty piece. -/
def splitOnChar (sep : Char) : List Char → List (List Char)
  | [] => [[]]
  | c :: cs =>
    if c == sep then [] :: splitOnChar sep cs
    else
      match splitOnChar sep cs with
      | [] => [[c]]
      | p :: ps => (c :: p) :: ps

/-- Decimal digit character. -/
def digitChar (d : Nat) : Char := Char.ofNat (48 + d)

/-- Decimal digits of n, most significant first; the first argument is fuel
(n itself always suffices) so that the kernel can evaluate it. -/
def natToCharsAux : Nat → Nat → List Char
  | 0, _ => []
  | Nat.succ f, n => if n == 0 then [] else natToCharsAux f (n / 10) ++ [digitChar (n % 10)]

/-- Python str(n) for a natural number. -/
def natToChars (n : Nat) : List Char := if n == 0 then [digitChar 0] else natToCharsAux n n

/-- Python str(i) for an integer. -/
def intToChars (i : Int) : List Char :=
  if i < 0 then '-' :: natToChars i.natAbs else natToChars i.natAbs

/-- Whitespace stripped by Python int() and str.strip(). -/
def isPyWs (c : Char) : Bool :=
  c == ' ' || c == Char.ofNat 9 || c == Char.ofNat 10 || c == Char.ofNat 13 ||
  c == Char.ofNat 11 || c == Char.ofNat 12

/-- ASCII digit test. -/
def isAsciiDigit (c : Char) : Bool := '0' ≤ c && c ≤ '9'

/-- Numeric value of an ASCII digit. -/
def digitVal (c : Char) : Nat := c.toNat - 48

/-- Remaining digits of a Python integer literal: digits with single
underscores allowed between digits (Python 3 int() grammar, ASCII case). -/
def digitsCore : List Char → Nat → Option Nat
  | [], acc => some acc
  | '_' :: c :: cs, acc => if isAsciiDigit c then digitsCore cs (acc * 10 + digitVal c) else none
  | c :: cs, acc => if isAsciiDigit c then digitsCore cs (acc * 10 + digitVal c) else none

/-- Value of a non-empty digit group (no sign). -/
def digitsVal : List Char → Option Nat
  | [] => none
  | c :: cs => if isAsciiDigit c then digitsCore cs (digitVal c) else none

/-- Python str.strip() with default whitespace. -/
def stripWs (s : List Char) : List Char :=
  ((s.dropWhile isPyWs).reverse.dropWhile isPyWs).reverse

/-- Python int(s) on ASCII input: optional surrounding whitespace, optional
sign, non-empty digit group; None models the ValueError. -/
def pyInt (s : List Char) : Option Int :=
  match stripWs s with
  | '+' :: rest => (digitsVal rest).map (fun n => (n : Int))
  | '-' :: rest => (digitsVal rest).map (fun n => -(n : Int))
  | rest => (digitsVal rest).map (fun n => (n : Int))

/-- The generator sum inside parse_duration: each (multiplier, piece) pair
contributes multiplier * int(piece); any unparsable piece aborts the whole
sum (the ValueError caught by parse_duration). -/
def sumWeighted : List (Int × List Char) → Option Int
  | [] => some 0
  | (m, t) :: rest =>
    match pyInt t, sumWeighted rest with
    | some v, some r => some (m * v + r)
    | _, _ => none

/-- parse_duration from the source: split on the colon, weight the last up to
three pieces by 1, 60, 3600 (zip truncates), and fall back to 0 on None or
any parse failure.  The Python float conversion of the integer sum is exact,
so the result is modelled as Int. -/
def parse_duration (duration : Option (List Char)) : Int :=
  match duration with
  | none => 0
  | some d =>
    match sumWeighted (List.zip [1, 60, 3600] (splitOnChar ':' d).reverse) with
    | some s => s
    | none => 0

/-- Characters removed outright by sanitize_string. -/
def removedChar (c : Char) : Bool :=
  c == '/' || c == '?' || c == Char.ofNat 92 || c == '*' || c == '|' || c == '<' || c == '>'

/-- sanitize_string from the source: drop the Windows-disallowed characters,
then replace the double quote with a single quote, then the colon with a
hyphen (the two replace calls are per-character, hence the two maps). -/
def sanitize_string (s : List Char) : List Char :=
  ((s.filter (fun c => !removedChar c)).map
      (fun c => if c == Char.ofNat 34 then Char.ofNat 39 else c)).map
    (fun c => if c == ':' then '-' else c)

/-- Per-character action of sanitize_string, used to state C9: removed
characters vanish, the quote becomes an apostrophe, the colon a hyphen,
everything else is kept. -/
def sanChar (c : Char) : Option Char :=
  if removedChar c then none
  else if c == Char.ofNat 34 then some (Char.ofNat 39)
  else if c == ':' then some '-'
  else some c

theorem splitOnChar_cons (sep c : Char) (cs : List Char) :
    splitOnChar sep (c :: cs) =
      if c == sep then [] :: splitOnChar sep cs
      else
        match splitOnChar sep cs with
        | [] => [[c]]
        | p :: ps => (c :: p) :: ps := rfl

theorem sanitize_string_cons (c : Char) (cs : List Char) :
    sanitize_string (c :: cs) =
      (match sanChar c with
       | none => sanitize_string cs
       | some d => d :: sanitize_string cs) := by
  unfold sanitize_string sanChar
  by_cases h1 : removedChar c
  · simp [h1]
  · by_cases h2 : c == Char.ofNat 34
    · have hc : c = Char.ofNat 34 := eq_of_beq h2
      subst hc
      simp [h1]
    · by_cases h3 : c == ':'
      · have hc : c = ':' := eq_of_beq h3
        subst hc
        simp [h1]
      · simp only [beq_iff_eq] at h2 h3
        simp [h1, h2, h3]

theorem sanitize_eq_filterMap (s : List Char) : sanitize_string s = s.filterMap sanChar := by
  induction s with
  | nil => rfl
  | cons c cs ih =>
    rw [sanitize_string_cons, List.filterMap_cons, ih]
    cases sanChar c <;> rfl

theorem sanChar_some_prop (a c : Char) (h : sanChar a = some c) :
    removedChar c = false ∧ c ≠ Char.ofNat 34 ∧ c ≠ ':' := by
  unfold sanChar at h
  by_cases h1 : removedChar a
  · simp [h1] at h
  · by_cases h2 : a == Char.ofNat 34
    · simp [h1, h2] at h
      subst h
      refine ⟨by decide, by decide, by decide⟩
    · by_cases h3 : a == ':'
      · simp [h1, h2, h3] at h
        subst h
        refine ⟨by decide, by decide, by decide⟩
      · simp [h1, h2, h3] at h
        subst h
        simp only [beq_iff_eq] at h2 h3
        exact ⟨by simpa using h1, h2, h3⟩

/-- C9: sanitize_string removes each of the seven disallowed characters with
no replacement, turns every double quote into a single quote and every colon
into a hyphen, and (because removal precedes replacement) the replacement
outputs are never removed: the whole function is the per-character filterMap
of sanChar, its output never contains a removed character, a double quote or
a colon, and on the concrete input from the spec it gives A, hyphen, B,
apostrophe, C. -/
theorem c9_sanitize_string :
    (∀ s : List Char, sanitize_string s = s.filterMap sanChar)
    ∧ (∀ s : List Char, ∀ c ∈ sanitize_string s,
        removedChar c = false ∧ c ≠ Char.ofNat 34 ∧ c ≠ ':')
    ∧ sanitize_string "A:B\x22C".data = "A-B\x27C".data := by
  refine ⟨sanitize_eq_filterMap, ?_, by decide⟩
  intro s c hc
  rw [sanitize_eq_filterMap] at hc
  rcases List.mem_filterMap.mp hc with ⟨a, _, ha⟩
  exact sanChar_some_prop a c ha

theorem splitOnChar_ne_nil (sep : Char) (s : List Char) : splitOnChar sep s ≠ [] := by
  cases s with
  | nil => simp [splitOnChar]
  | cons c cs =>
    rw [splitOnChar_cons]
    by_cases h : c == sep
    · simp [h]
    · simp only [h, Bool.false_eq_true, if_false]
      cases splitOnChar sep cs <;> simp

theorem splitOnChar_append (sep : Char) (x y : List Char) :
    splitOnChar sep (x ++ sep :: y) = splitOnChar sep x ++ splitOnChar sep y := by
  induction x with
  | nil =>
    rw [List.nil_append, splitOnChar_cons]
    simp [splitOnChar]
  | cons c cs ih =>
    rw [List.cons_append, splitOnChar_cons, splitOnChar_cons, ih]
    by_cases h : c == sep
    · simp [h]
    · simp only [h, Bool.false_eq_true, if_false]
      rcases hs : splitOnChar sep cs with _ | ⟨p, ps⟩
      · exact absurd hs (splitOnChar_ne_nil sep cs)
      · simp

theorem splitOnChar_no_sep (sep : Char) (x : List Char) (h : ∀ c ∈ x, c ≠ sep) :
    splitOnChar sep x = [x] := by
  induction x with
  | nil => rfl
  | cons c cs ih =>
    rw [splitOnChar_cons]
    have hc : (c == sep) = false := by
      simpa using h c (List.mem_cons_self c cs)
    simp only [hc, Bool.false_eq_true, if_false]
    rw [ih (fun d hd => h d (List.mem_cons_of_mem c hd))]

theorem parse_duration_three (x hs ms ss : List Char) (h m s : Int)
    (nh : ∀ c ∈ hs, c ≠ ':') (nm : ∀ c ∈ ms, c ≠ ':') (ns : ∀ c ∈ ss, c ≠ ':')
    (ph : pyInt hs = some h) (pm : pyInt ms = some m) (ps : pyInt ss = some s) :
    parse_duration (some (x ++ ':' :: (hs ++ ':' :: (ms ++ ':' :: ss)))) = 3600 * h + 60 * m + s := by
  simp only [parse_duration]
  rw [splitOnChar_append, splitOnChar_append, splitOnChar_append,
    splitOnChar_no_sep _ _ nh, splitOnChar_no_sep _ _ nm, splitOnChar_no_sep _ _ ns]
  simp only [List.reverse_append, List.reverse_cons, List.reverse_nil, List.nil_append,
    List.cons_append, List.append_assoc]
  simp only [List.zip, List.zipWith, sumWeighted, ph, pm, ps]
  omega

theorem parse_duration_two (ms ss : List Char) (m s : Int)
    (nm : ∀ c ∈ ms, c ≠ ':') (ns : ∀ c ∈ ss, c ≠ ':')
    (pm : pyInt ms = some m) (ps : pyInt ss = some s) :
    parse_duration (some (ms ++ ':' :: ss)) = 60 * m + s := by
  simp only [parse_duration]
  rw [splitOnChar_append, splitOnChar_no_sep _ _ nm, splitOnChar_no_sep _ _ ns]
  simp only [List.reverse_append, List.reverse_cons, List.reverse_nil, List.nil_append,
    List.cons_append, List.append_assoc]
  simp only [List.zip, List.zipWith, sumWeighted, pm, ps]
  omega

theorem parse_duration_one (ss : List Char) (s : Int)
    (ns : ∀ c ∈ ss, c ≠ ':') (ps : pyInt ss = some s) :
    parse_duration (some ss) = s := by
  simp only [parse_duration]
  rw [splitOnChar_no_sep _ _ ns]
  simp only [List.reverse_cons, List.reverse_nil, List.nil_append]
  simp only [List.zip, List.zipWith, sumWeighted, ps]
  omega

/-- C10: parse_duration is total (modelled as a total function into Int; the
Python float conversion of the integer sum is exact): a colon-separated
string is summed over its last up to three pieces with weights 1, 60, 3600
right to left (any junk before the last three colon-separated pieces is
ignored without even being parsed, since zip truncates), and None, empty or
unparsable input yields 0 as the intentional silent fallback. -/
theorem c10_parse_duration :
    parse_duration (some "1:02:03".data) = 3723
    ∧ parse_duration none = 0
    ∧ parse_duration (some "garbage".data) = 0
    ∧ parse_duration (some [] ) = 0
    ∧ (∀ (x hs ms ss : List Char) (h m s : Int),
        (∀ c ∈ hs, c ≠ ':') → (∀ c ∈ ms, c ≠ ':') → (∀ c ∈ ss, c ≠ ':') →
        pyInt hs = some h → pyInt ms = some m → pyInt ss = some s →
        parse_duration (some (x ++ ':' :: (hs ++ ':' :: (ms ++ ':' :: ss)))) =
          3600 * h + 60 * m + s)
    ∧ (∀ (hs ms ss : List Char) (h m s : Int),
        (∀ c ∈ hs, c ≠ ':') → (∀ c ∈ ms, c ≠ ':') → (∀ c ∈ ss, c ≠ ':') →
        pyInt hs = some h → pyInt ms = some m → pyInt ss = some s →
        parse_duration (some (hs ++ ':' :: (ms ++ ':' :: ss))) = 3600 * h + 60 * m + s)
    ∧ (∀ (ms ss : List Char) (m s : Int),
        (∀ c ∈ ms, c ≠ ':') → (∀ c ∈ ss, c ≠ ':') →
        pyInt ms = some m → pyInt ss = some s →
        parse_duration (some (ms ++ ':' :: ss)) = 60 * m + s)
    ∧ (∀ (ss : List Char) (s : Int),
        (∀ c ∈ ss, c ≠ ':') → pyInt ss = some s →
        parse_duration (some ss) = s) := by
  refine ⟨by decide, rfl, by decide, rfl, parse_duration_three, ?_, parse_duration_two,
    parse_duration_one⟩
  intro hs ms ss h m s nh nm ns ph pm ps
  rw [show hs ++ ':' :: (ms ++ ':' :: ss) = hs ++ ':' :: ms ++ ':' :: ss from by simp]
  simp only [parse_duration]
  rw [splitOnChar_append, splitOnChar_append,
    splitOnChar_no_sep _ _ nh, splitOnChar_no_sep _ _ nm, splitOnChar_no_sep _ _ ns]
  simp only [List.reverse_append, List.reverse_cons, List.reverse_nil, List.nil_append,
    List.cons_append, List.append_assoc]
  simp only [List.zip, List.zipWith, sumWeighted, ph, pm, ps]
  omega

/-- Witness for C10 at concrete inputs: a four-piece string whose junk head
is ignored, evaluated through the general clause of the theorem. -/
theorem c10_parse_duration_witness :
    parse_duration (some ("junk".data ++ ':' :: ("1".data ++ ':' :: ("02".data ++ ':' :: "03".data)))) = 3723 := by
  have h := c10_parse_duration.2.2.2.2.1 "junk".data "1".data "02".data "03".data 1 2 3
    (by decide) (by decide) (by decide) (by decide) (by decide) (by decide)
  simpa using h

/-- The CJK block ranges of JAP_REGEX in the source (Hiragana, Katakana,
half/full-width forms, CJK unified ideographs, extension A, CJK symbols). -/
def isCJK (c : Char) : Bool :=
  (0x3000 ≤ c.toNat && c.toNat ≤ 0x303f) || (0x3040 ≤ c.toNat && c.toNat ≤ 0x309f) ||
  (0x30a0 ≤ c.toNat && c.toNat ≤ 0x30ff) || (0xff00 ≤ c.toNat && c.toNat ≤ 0xff9f) ||
  (0x4e00 ≤ c.toNat && c.toNat ≤ 0x9faf) || (0x3400 ≤ c.toNat && c.toNat ≤ 0x4dbf)

/-- Complement of DISALLOWED_REGEX: hyphen, ASCII letters (codes 97-122 and
65-90), digits (48-57), exclamation mark, at sign, dollar sign. -/
def isAllowedSlug (c : Char) : Bool :=
  c == '-' || (97 ≤ c.toNat && c.toNat ≤ 122) || (65 ≤ c.toNat && c.toNat ≤ 90) ||
  (48 ≤ c.toNat && c.toNat ≤ 57) || c == '!' || c == '@' || c == '$'

/-- Finite character-to-character lookup with identity fallback. -/
def tableMap (t : List (Char × Char)) (c : Char) : Char :=
  ((t.find? (fun p => p.1 == c)).map Prod.snd).getD c

/-- Modelled from the spec: python-slugify lower-cases its input; the ASCII
case table. -/
def lowerTable : List (Char × Char) :=
  [('A', 'a'), ('B', 'b'), ('C', 'c'), ('D', 'd'), ('E', 'e'), ('F', 'f'), ('G', 'g'),
   ('H', 'h'), ('I', 'i'), ('J', 'j'), ('K', 'k'), ('L', 'l'), ('M', 'm'), ('N', 'n'),
   ('O', 'o'), ('P', 'p'), ('Q', 'q'), ('R', 'r'), ('S', 's'), ('T', 't'), ('U', 'u'),
   ('V', 'v'), ('W', 'w'), ('X', 'x'), ('Y', 'y'), ('Z', 'z')]

/-- Modelled from the spec: transliteration of accented Latin to base ASCII
(a representative table; python-slugify delegates to the unidecode data,
which is external linguistic data not part of this repository). -/
def translitTable : List (Char × Char) :=
  [('à', 'a'), ('á', 'a'), ('â', 'a'), ('ä', 'a'), ('è', 'e'), ('é', 'e'), ('ê', 'e'),
   ('ë', 'e'), ('ì', 'i'), ('í', 'i'), ('î', 'i'), ('ï', 'i'), ('ò', 'o'), ('ó', 'o'),
   ('ô', 'o'), ('ö', 'o'), ('ù', 'u'), ('ú', 'u'), ('û', 'u'), ('ü', 'u'), ('ñ', 'n'),
   ('ç', 'c'), ('À', 'a'), ('É', 'e'), ('Ö', 'o'), ('Ü', 'u'), ('Ç', 'c')]

/-- Lower-casing step of the slug pipeline. -/
def lowerChar (c : Char) : Char := tableMap lowerTable c

/-- Transliteration step of the slug pipeline. -/
def translitChar (c : Char) : Char := tableMap translitTable c

/-- Collapse every run of characters rejected by keep into one hyphen; the
Boolean records whether we are inside such a run. -/
def collapseAuxP (keep : Char → Bool) : List Char → Bool → List Char
  | [], _ => []
  | c :: cs, b =>
    if keep c then c :: collapseAuxP keep cs false
    else if b then collapseAuxP keep cs true
    else '-' :: collapseAuxP keep cs true

/-- Hyphen test for the separator trim. -/
def isDash (c : Char) : Bool := c == '-'

/-- Trim leading and trailing separators. -/
def trimDash (l : List Char) : List Char :=
  ((l.dropWhile isDash).reverse.dropWhile isDash).reverse

/-- Modelled from the spec: the single-pass slug of python-slugify with the
DISALLOWED_REGEX pattern — lower-case, transliterate accented Latin to base
ASCII, collapse runs of characters outside the allowed set into single
separators, trim leading and trailing separators. -/
def slugStep (s : List Char) : List Char :=
  trimDash (collapseAuxP isAllowedSlug ((s.map lowerChar).map translitChar) false)

/-- Modelled from the spec: py_slugify called with the JAP_REGEX pattern,
which collapses runs of CJK characters into separators (the other pipeline
stages are shared with slugStep). -/
def japStep (s : List Char) : List Char :=
  trimDash (collapseAuxP (fun c => !isCJK c) ((s.map lowerChar).map translitChar) false)

/-- slugify from the source: a CJK-free string takes the early-return single
slug pass; otherwise the source first strips CJK runs with the JAP pattern,
feeds the result to pykakasi (whose conversion of an already CJK-free string
is the identity: every item equals its own romanization, so no separator is
inserted), and runs the DISALLOWED pass on the outcome.  The pykakasi
romanization table is external linguistic data modelled from the spec. -/
def slugify (s : List Char) : List Char :=
  if s.any isCJK then slugStep (japStep s) else slugStep s

theorem lower_val_not_key : ∀ q ∈ lowerTable, ∀ p ∈ lowerTable, p.1 ≠ q.2 := by decide

theorem translit_val_not_lower_key : ∀ q ∈ translitTable, ∀ p ∈ lowerTable, p.1 ≠ q.2 := by
  decide

theorem translit_val_not_translit_key : ∀ q ∈ translitTable, ∀ p ∈ translitTable, p.1 ≠ q.2 := by
  decide

theorem tableMap_eq_of_not_key (t : List (Char × Char)) (c : Char)
    (h : ∀ p ∈ t, p.1 ≠ c) : tableMap t c = c := by
  have hf : t.find? (fun p => p.1 == c) = none := by
    rw [List.find?_eq_none]
    intro p hp
    simpa using h p hp
  simp [tableMap, hf]

theorem tableMap_cases (t : List (Char × Char)) (c : Char) :
    tableMap t c = c ∨ ∃ q ∈ t, tableMap t c = q.2 := by
  rcases hfind : t.find? (fun p => p.1 == c) with _ | q
  · left
    simp [tableMap, hfind]
  · right
    exact ⟨q, List.mem_of_find?_eq_some hfind, by simp [tableMap, hfind]⟩

theorem tableMap_not_key (t : List (Char × Char)) (c : Char)
    (hvals : ∀ q ∈ t, ∀ p ∈ t, p.1 ≠ q.2) :
    ∀ p ∈ t, p.1 ≠ tableMap t c := by
  intro p hp
  rcases hfind : t.find? (fun q => q.1 == c) with _ | q
  · have hid : tableMap t c = c := by simp [tableMap, hfind]
    rw [hid]
    have := List.find?_eq_none.mp hfind p hp
    simpa using this
  · have hq : q ∈ t := List.mem_of_find?_eq_some hfind
    have hv : tableMap t c = q.2 := by simp [tableMap, hfind]
    rw [hv]
    exact hvals q hq p hp

theorem pipeline_stable (a : Char) :
    lowerChar (translitChar (lowerChar a)) = translitChar (lowerChar a)
    ∧ translitChar (translitChar (lowerChar a)) = translitChar (lowerChar a) := by
  have hbkey : ∀ p ∈ lowerTable, p.1 ≠ lowerChar a :=
    tableMap_not_key lowerTable a lower_val_not_key
  rcases tableMap_cases translitTable (lowerChar a) with h | ⟨q, hq, h⟩
  · have h2 : translitChar (lowerChar a) = lowerChar a := h
    constructor
    · rw [h2]
      exact tableMap_eq_of_not_key _ _ hbkey
    · rw [h2]
      exact h2
  · have h2 : translitChar (lowerChar a) = q.2 := h
    constructor
    · rw [h2]
      exact tableMap_eq_of_not_key _ _ (fun p hp => translit_val_not_lower_key q hq p hp)
    · rw [h2]
      exact tableMap_eq_of_not_key _ _ (fun p hp => translit_val_not_translit_key q hq p hp)

theorem mem_collapseAuxP (keep : Char → Bool) (l : List Char) (b : Bool) (c : Char)
    (h : c ∈ collapseAuxP keep l b) : (c ∈ l ∧ keep c = true) ∨ c = '-' := by
  induction l generalizing b with
  | nil => simp [collapseAuxP] at h
  | cons d ds ih =>
    unfold collapseAuxP at h
    by_cases hk : keep d
    · rw [if_pos hk] at h
      rcases List.mem_cons.mp h with rfl | h2
      · exact Or.inl ⟨List.mem_cons_self _ _, hk⟩
      · rcases ih false h2 with ⟨h3, h4⟩ | h5
        · exact Or.inl ⟨List.mem_cons_of_mem _ h3, h4⟩
        · exact Or.inr h5
    · rw [if_neg hk] at h
      cases b with
      | true =>
        rw [if_pos rfl] at h
        rcases ih true h with ⟨h3, h4⟩ | h5
        · exact Or.inl ⟨List.mem_cons_of_mem _ h3, h4⟩
        · exact Or.inr h5
      | false =>
        rw [if_neg (by simp)] at h
        rcases List.mem_cons.mp h with rfl | h2
        · exact Or.inr rfl
        · rcases ih true h2 with ⟨h3, h4⟩ | h5
          · exact Or.inl ⟨List.mem_cons_of_mem _ h3, h4⟩
          · exact Or.inr h5

theorem mem_trimDash (l : List Char) (c : Char) (h : c ∈ trimDash l) : c ∈ l := by
  unfold trimDash at h
  rw [List.mem_reverse] at h
  have h2 := ((List.dropWhile_suffix isDash).sublist).mem h
  rw [List.mem_reverse] at h2
  exact ((List.dropWhile_suffix isDash).sublist).mem h2

theorem map_eq_self_of_all (f : Char → Char) (l : List Char) (h : ∀ c ∈ l, f c = c) :
    l.map f = l := by
  induction l with
  | nil => rfl
  | cons c cs ih =>
    simp only [List.map_cons]
    rw [h c (List.mem_cons_self c cs), ih (fun d hd => h d (List.mem_cons_of_mem c hd))]

theorem collapseAuxP_eq_self (keep : Char → Bool) (l : List Char) (b : Bool)
    (h : ∀ c ∈ l, keep c = true) : collapseAuxP keep l b = l := by
  induction l generalizing b with
  | nil => rfl
  | cons c cs ih =>
    unfold collapseAuxP
    rw [if_pos (h c (List.mem_cons_self c cs))]
    rw [ih false (fun d hd => h d (List.mem_cons_of_mem c hd))]

theorem head?_dropWhile_not (p : Char → Bool) (l : List Char) (c : Char)
    (h : (l.dropWhile p).head? = some c) : p c = false := by
  induction l with
  | nil => simp [List.dropWhile] at h
  | cons d ds ih =>
    rw [List.dropWhile_cons] at h
    by_cases hd : p d
    · rw [if_pos hd] at h
      exact ih h
    · rw [if_neg hd] at h
      simp only [List.head?_cons, Option.some.injEq] at h
      subst h
      simpa using hd

theorem dropWhile_eq_self_of_head (p : Char → Bool) (l : List Char)
    (h : ∀ c, l.head? = some c → p c = false) : l.dropWhile p = l := by
  cases l with
  | nil => rfl
  | cons c cs =>
    rw [List.dropWhile_cons, if_neg]
    simp [h c rfl]

theorem trimDash_getLast? (l : List Char) (c : Char)
    (h : (trimDash l).getLast? = some c) : isDash c = false := by
  unfold trimDash at h
  rw [List.getLast?_reverse] at h
  exact head?_dropWhile_not _ _ _ h

theorem trimDash_head? (l : List Char) (c : Char)
    (h : (trimDash l).head? = some c) : isDash c = false := by
  unfold trimDash at h
  have hsuf : ((l.dropWhile isDash).reverse.dropWhile isDash) <:+ (l.dropWhile isDash).reverse :=
    List.dropWhile_suffix isDash
  rcases hsuf with ⟨pre, hpre⟩
  have hm : l.dropWhile isDash =
      ((l.dropWhile isDash).reverse.dropWhile isDash).reverse ++ pre.reverse := by
    have := congrArg List.reverse hpre
    simpa [List.reverse_append] using this.symm
  apply head?_dropWhile_not isDash l c
  rw [hm]
  rcases he : ((l.dropWhile isDash).reverse.dropWhile isDash).reverse with _ | ⟨a, ts⟩
  · rw [he] at h
    simp at h
  · rw [he] at h
    simp only [List.head?_cons, Option.some.injEq] at h
    subst h
    simp

theorem trimDash_eq_self (l : List Char)
    (hh : ∀ c, l.head? = some c → isDash c = false)
    (hl : ∀ c, l.getLast? = some c → isDash c = false) : trimDash l = l := by
  unfold trimDash
  rw [dropWhile_eq_self_of_head isDash l hh]
  rw [dropWhile_eq_self_of_head isDash l.reverse
    (fun c hc => hl c (by rwa [List.head?_reverse] at hc))]
  rw [List.reverse_reverse]

theorem mem_slugStep (s : List Char) (c : Char) (h : c ∈ slugStep s) :
    isAllowedSlug c = true ∧ lowerChar c = c ∧ translitChar c = c := by
  unfold slugStep at h
  have h2 := mem_trimDash _ _ h
  rcases mem_collapseAuxP _ _ _ _ h2 with ⟨hmem, hkeep⟩ | rfl
  · rcases List.mem_map.mp hmem with ⟨d, hd, rfl⟩
    rcases List.mem_map.mp hd with ⟨a, _, rfl⟩
    exact ⟨hkeep, (pipeline_stable a).1, (pipeline_stable a).2⟩
  · exact ⟨by decide, by decide, by decide⟩

theorem slugStep_idem (s : List Char) : slugStep (slugStep s) = slugStep s := by
  have hmem := mem_slugStep s
  have h1 : (slugStep s).map lowerChar = slugStep s :=
    map_eq_self_of_all _ _ (fun c hc => (hmem c hc).2.1)
  have h2 : (slugStep s).map translitChar = slugStep s :=
    map_eq_self_of_all _ _ (fun c hc => (hmem c hc).2.2)
  have h3 : collapseAuxP isAllowedSlug (slugStep s) false = slugStep s :=
    collapseAuxP_eq_self _ _ _ (fun c hc => (hmem c hc).1)
  have h4 : trimDash (slugStep s) = slugStep s := by
    apply trimDash_eq_self
    · intro c hc
      exact trimDash_head? _ _ hc
    · intro c hc
      exact trimDash_getLast? _ _ hc
  show trimDash (collapseAuxP isAllowedSlug (((slugStep s).map lowerChar).map translitChar)
      false) = slugStep s
  rw [h1, h2, h3, h4]

theorem isAllowedSlug_not_CJK (c : Char) (h : isAllowedSlug c = true) : isCJK c = false := by
  have hle : c.toNat ≤ 122 := by
    unfold isAllowedSlug at h
    simp only [Bool.or_eq_true, Bool.and_eq_true, beq_iff_eq, decide_eq_true_eq] at h
    rcases h with ((((((h | h) | h) | h) | h) | h) | h)
    · subst h
      decide
    · omega
    · omega
    · omega
    · subst h
      decide
    · subst h
      decide
    · subst h
      decide
  rw [Bool.eq_false_iff]
  intro hc
  unfold isCJK at hc
  simp only [Bool.or_eq_true, Bool.and_eq_true, decide_eq_true_eq] at hc
  omega

/-- C7: on a CJK-free string, slugify takes the single-pass branch, its
output contains only characters of the allowed set [-a-zA-Z0-9!@$], and it
is idempotent. -/
theorem c7_slugify (s : List Char) (h : ∀ c ∈ s, isCJK c = false) :
    (∀ c ∈ slugify s, isAllowedSlug c = true) ∧ slugify (slugify s) = slugify s := by
  have hany : s.any isCJK = false := by
    rw [List.any_eq_false]
    intro c hc
    simp [h c hc]
  have hs : slugify s = slugStep s := by
    unfold slugify
    rw [hany]
    simp
  constructor
  · intro c hc
    rw [hs] at hc
    exact (mem_slugStep s c hc).1
  · have hany2 : (slugStep s).any isCJK = false := by
      rw [List.any_eq_false]
      intro c hc
      simp [isAllowedSlug_not_CJK c (mem_slugStep s c hc).1]
    rw [hs]
    unfold slugify
    rw [hany2]
    simp only [Bool.false_eq_true, if_false]
    exact slugStep_idem s

/-- Witness for C7 on a concrete CJK-free string. -/
theorem c7_slugify_witness :
    (∀ c ∈ slugify "Hello, World!".data, isAllowedSlug c = true)
    ∧ slugify (slugify "Hello, World!".data) = slugify "Hello, World!".data :=
  c7_slugify _ (by decide)

/-- Modelled from the spec: the track record of section 3 (the Song dataclass
of spotdl/types/song.py, which is not under src/).  All fields are present
except the playlist-context trio, which is optional; display_name is used by
the source only inside log and error message text and is therefore omitted. -/
structure Song where
  name : List Char
  artists : List (List Char)
  album_name : List Char
  album_artist : List Char
  genres : List (List Char)
  disc_number : Int
  disc_count : Int
  duration : Int
  year : Int
  date : List Char
  track_number : Int
  tracks_count : Int
  isrc : List Char
  song_id : List Char
  publisher : List Char
  list_name : Option (List Char)
  list_position : Option Int
  list_length : Option Int
deriving DecidableEq, Repr

def keyTitle : List Char := "\x7btitle\x7d".data

def keyArtists : List Char := "\x7bartists\x7d".data

def keyArtist : List Char := "\x7bartist\x7d".data

def keyAlbum : List Char := "\x7balbum\x7d".data

def keyAlbumArtist : List Char := "\x7balbum-artist\x7d".data

def keyGenre : List Char := "\x7bgenre\x7d".data

def keyDiscNumber : List Char := "\x7bdisc-number\x7d".data

def keyDiscCount : List Char := "\x7bdisc-count\x7d".data

def keyDuration : List Char := "\x7bduration\x7d".data

def keyYear : List Char := "\x7byear\x7d".data

def keyOriginalDate : List Char := "\x7boriginal-date\x7d".data

def keyTrackNumber : List Char := "\x7btrack-number\x7d".data

def keyTracksCount : List Char := "\x7btracks-count\x7d".data

def keyIsrc : List Char := "\x7bisrc\x7d".data

def keyTrackId : List Char := "\x7btrack-id\x7d".data

def keyPublisher : List Char := "\x7bpublisher\x7d".data

def keyListLength : List Char := "\x7blist-length\x7d".data

def keyListPosition : List Char := "\x7blist-position\x7d".data

def keyListName : List Char := "\x7blist-name\x7d".data

def keyOutputExt : List Char := "\x7boutput-ext\x7d".data

/-- VARS from the source, in source order. -/
def VARS : List (List Char) :=
  [keyTitle, keyArtists, keyArtist, keyAlbum, keyAlbumArtist, keyGenre, keyDiscNumber,
   keyDiscCount, keyDuration, keyYear, keyOriginalDate, keyTrackNumber, keyTracksCount,
   keyIsrc, keyTrackId, keyPublisher, keyListLength, keyListPosition, keyListName,
   keyOutputExt]

/-- Python str.zfill: left-pad with zeros to the width, keeping a leading
sign in place. -/
def zfill (w : Nat) (s : List Char) : List Char :=
  if w ≤ s.length then s
  else
    match s with
    | '-' :: rest => '-' :: (List.replicate (w - s.length) '0' ++ rest)
    | '+' :: rest => '+' :: (List.replicate (w - s.length) '0' ++ rest)
    | _ => List.replicate (w - s.length) '0' ++ s

/-- Python str() of an optional integer: None prints as the four letters
N, o, n, e. -/
def pyStrOptInt : Option Int → List Char
  | none => "None".data
  | some i => intToChars i

/-- Python f-string 02d formatting: zero-pad to overall width 2 with the
sign, if any, leading. -/
def formatTwoDigits (i : Int) : List Char :=
  if i < 0 then
    '-' :: (List.replicate (1 - (natToChars i.natAbs).length) '0' ++ natToChars i.natAbs)
  else
    List.replicate (2 - (natToChars i.natAbs).length) '0' ++ natToChars i.natAbs

/-- The artist filter of format_query: drop every artist whose slug occurs
inside the slug of the title. -/
def dedupArtists (song : Song) : List (List Char) :=
  song.artists.filter (fun artist => !containsSub (slugify artist) (slugify song.name))

/-- The re-insertion step of format_query: the primary artist is put back at
the front when the filtered list is empty or does not start with it. -/
def artistsListP (primary : List Char) (song : Song) : List (List Char) :=
  let filtered := dedupArtists song
  if filtered = [] ∨ filtered.head? ≠ some primary then primary :: filtered else filtered

/-- Python join with a comma and a space. -/
def joinComma (l : List (List Char)) : List Char := List.intercalate ", ".data l

/-- The value substituted for the artists placeholder: only the primary
artist in short mode, the deduplicated joined list otherwise. -/
def artistsSubstValue (primary astr : List Char) (short : Bool) : List Char :=
  if short then primary else astr

/-- The formats mapping of format_query, in source (insertion) order; values
are the Python str() forms and genuinely-None values are kept as none. -/
def formatsList (song : Song) (primary astr : List Char)
    (file_extension : Option (List Char)) (short : Bool) :
    List (List Char × Option (List Char)) :=
  [(keyTitle, some song.name),
   (keyArtists, some (artistsSubstValue primary astr short)),
   (keyArtist, some primary),
   (keyAlbum, some song.album_name),
   (keyAlbumArtist, some song.album_artist),
   (keyGenre, some (song.genres.headD [])),
   (keyDiscNumber, some (intToChars song.disc_number)),
   (keyDiscCount, some (intToChars song.disc_count)),
   (keyDuration, some (intToChars song.duration)),
   (keyYear, some (intToChars song.year)),
   (keyOriginalDate, some song.date),
   (keyTrackNumber, some (formatTwoDigits song.track_number)),
   (keyTracksCount, some (intToChars song.tracks_count)),
   (keyIsrc, some song.isrc),
   (keyTrackId, some song.song_id),
   (keyPublisher, some song.publisher),
   (keyOutputExt, file_extension),
   (keyListName, song.list_name),
   (keyListPosition,
     some (zfill (pyStrOptInt song.list_length).length (pyStrOptInt song.list_position))),
   (keyListLength, song.list_length.map intToChars)]

/-- One step of the playlist-placeholder elision loop of format_query: when
the template contains the key but the field is None, remove the key and then
collapse doubled slashes. -/
def elideOne (template key : List Char) (isNone : Bool) : List Char :=
  if containsSub key template && isNone then
    replaceSub "//".data "/".data (replaceSub key [] template)
  else template

/-- Substituted string form of a mapped value, Python str(). -/
def optValStr : Option (List Char) → List Char
  | none => "None".data
  | some v => v

/-- The final replacement loop of format_query: one sequential replace per
mapping entry, in mapping order. -/
def substAll (pairs : List (List Char × Option (List Char))) (template : List Char) :
    List Char :=
  pairs.foldl (fun t kv => replaceSub kv.1 (optValStr kv.2) t) template

/-- The default leaf template of the source. -/
def defaultLeafTpl : List Char := "\x7bartists\x7d - \x7btitle\x7d.\x7boutput-ext\x7d".data

/-- format_query from the source: extension check, playlist elision loop,
bare-extension template fix, artist de-duplication, mapping construction,
optional sanitization of the values, sequential substitution. -/
def format_query (song : Song) (template : List Char) (santitize : Bool)
    (file_extension : Option (List Char)) (short : Bool) : Except PyErr (List Char) :=
  if containsSub keyOutputExt template && file_extension.isNone then
    .error .missingExtension
  else
    let t1 := elideOne template keyListLength song.list_length.isNone
    let t2 := elideOne t1 keyListPosition song.list_position.isNone
    let t3 := elideOne t2 keyListName song.list_name.isNone
    let t4 := if t3 = "/.\x7boutput-ext\x7d".data ∨ t3 = ".\x7boutput-ext\x7d".data then
        defaultLeafTpl
      else t3
    match song.artists with
    | [] => .error .indexError
    | primary :: _ =>
      let astr := joinComma (artistsListP primary song)
      let fmts := formatsList song primary astr file_extension short
      let fmts2 := if santitize then
          fmts.map (fun kv => (kv.1, kv.2.map sanitize_string))
        else fmts
      .ok (substAll fmts2 t4)

/-- create_search_query from the source: prepend the artist - title prefix
when the template has no recognized placeholder, then delegate. -/
def create_search_query (song : Song) (template : List Char) (santitize : Bool)
    (file_extension : Option (List Char)) (short : Bool) : Except PyErr (List Char) :=
  let t := if !(VARS.any (fun k => containsSub k template)) then
      "\x7bartist\x7d - \x7btitle\x7d".data ++ template
    else template
  format_query song t santitize file_extension short

/-- C3: format_query returns the missing-extension usage error exactly when
the template contains the output-extension placeholder and no extension was
supplied (the check precedes all substitution and nothing else can produce
this error: every other outcome is a success or the empty-artist-list
IndexError). -/
theorem c3_missing_extension (song : Song) (template : List Char) (santitize : Bool)
    (file_extension : Option (List Char)) (short : Bool) :
    format_query song template santitize file_extension short = .error .missingExtension
      ↔ (containsSub keyOutputExt template = true ∧ file_extension = none) := by
  unfold format_query
  by_cases h : (containsSub keyOutputExt template && file_extension.isNone) = true
  · rw [if_pos h]
    simp only [Bool.and_eq_true, Option.isNone_iff_eq_none] at h
    simp [h.1, h.2]
  · rw [if_neg h]
    simp only [Bool.and_eq_true, Option.isNone_iff_eq_none] at h
    constructor
    · intro hc
      exfalso
      cases harts : song.artists with
      | nil =>
        rw [harts] at hc
        simp at hc
      | cons p rest =>
        rw [harts] at hc
        simp at hc
    · intro hc
      exact absurd ⟨hc.1, hc.2⟩ h

/-- Concrete record for the artist-deduplication example of the spec. -/
def loveSong : Song :=
  { name := "Love Song".data
    artists := ["Love Song".data, "Feat Artist".data]
    album_name := "Album".data
    album_artist := "Love Song".data
    genres := []
    disc_number := 1
    disc_count := 1
    duration := 200
    year := 2020
    date := "2020-01-01".data
    track_number := 3
    tracks_count := 10
    isrc := "ISRC123".data
    song_id := "id1".data
    publisher := "Pub".data
    list_name := none
    list_position := none
    list_length := none }

/-- C4: the artists substitution excludes exactly the artists whose slug is a
substring of the slugified title, always re-inserting the primary artist at
the front (so the joined artists string always starts with the primary
artist); in short mode the value is the primary artist alone; and on the
concrete example of the spec the joined value is Love Song, Feat Artist. -/
theorem c4_artist_dedup (song : Song) (primary : List Char) (rest : List (List Char))
    (h : song.artists = primary :: rest) :
    (artistsListP primary song).head? = some primary
    ∧ (∀ a ∈ artistsListP primary song,
        a = primary ∨ (a ∈ song.artists
          ∧ containsSub (slugify a) (slugify song.name) = false))
    ∧ (∀ a ∈ song.artists, containsSub (slugify a) (slugify song.name) = false →
        a ∈ artistsListP primary song)
    ∧ (∀ astr : List Char, artistsSubstValue primary astr true = primary)
    ∧ joinComma (artistsListP "Love Song".data loveSong) = "Love Song, Feat Artist".data := by
  refine ⟨?_, ?_, ?_, fun astr => rfl, by decide⟩
  · simp only [artistsListP]
    by_cases hc : dedupArtists song = [] ∨ (dedupArtists song).head? ≠ some primary
    · rw [if_pos hc]
      rfl
    · rw [if_neg hc]
      push_neg at hc
      exact hc.2
  · intro a ha
    simp only [artistsListP] at ha
    have hstep : ∀ b ∈ dedupArtists song,
        b ∈ song.artists ∧ containsSub (slugify b) (slugify song.name) = false := by
      intro b hb
      unfold dedupArtists at hb
      rcases List.mem_filter.mp hb with ⟨hmem, hpred⟩
      exact ⟨hmem, by simpa using hpred⟩
    by_cases hc : dedupArtists song = [] ∨ (dedupArtists song).head? ≠ some primary
    · rw [if_pos hc] at ha
      rcases List.mem_cons.mp ha with rfl | ha2
      · exact Or.inl rfl
      · exact Or.inr (hstep a ha2)
    · rw [if_neg hc] at ha
      exact Or.inr (hstep a ha)
  · intro a ha hnc
    have hmem : a ∈ dedupArtists song := by
      unfold dedupArtists
      exact List.mem_filter.mpr ⟨ha, by simp [hnc]⟩
    simp only [artistsListP]
    by_cases hc : dedupArtists song = [] ∨ (dedupArtists song).head? ≠ some primary
    · rw [if_pos hc]
      exact List.mem_cons_of_mem _ hmem
    · rw [if_neg hc]
      exact hmem

/-- Witness for C4 at the concrete record of the spec example. -/
theorem c4_artist_dedup_witness :
    (artistsListP "Love Song".data loveSong).head? = some "Love Song".data
    ∧ joinComma (artistsListP "Love Song".data loveSong) = "Love Song, Feat Artist".data := by
  have h := c4_artist_dedup loveSong "Love Song".data ["Feat Artist".data] rfl
  exact ⟨h.1, h.2.2.2.2⟩

theorem replaceSub_of_not_contains (pat rep t : List Char)
    (h : containsSub pat t = false) : replaceSub pat rep t = t := by
  induction t with
  | nil => rfl
  | cons c cs ih =>
    unfold containsSub at h
    rw [Bool.or_eq_false_iff] at h
    unfold replaceSub replGo
    rw [if_neg]
    · have := ih h.2
      unfold replaceSub at this
      rw [this]
    · simp [h.1]

theorem substAll_of_no_keys (pairs : List (List Char × Option (List Char))) (t : List Char)
    (h : ∀ kv ∈ pairs, containsSub kv.1 t = false) : substAll pairs t = t := by
  induction pairs with
  | nil => rfl
  | cons kv rest ih =>
    unfold substAll
    rw [List.foldl_cons]
    rw [replaceSub_of_not_contains _ _ _ (h kv (List.mem_cons_self _ _))]
    exact ih (fun kv2 h2 => h kv2 (List.mem_cons_of_mem _ h2))

theorem formatsList_key_mem (song : Song) (primary astr : List Char)
    (fe : Option (List Char)) (short : Bool) :
    ∀ kv ∈ formatsList song primary astr fe short, kv.1 ∈ VARS := by
  intro kv h
  simp only [formatsList, List.mem_cons, List.not_mem_nil, or_false] at h
  rcases h with rfl|rfl|rfl|rfl|rfl|rfl|rfl|rfl|rfl|rfl|rfl|rfl|rfl|rfl|rfl|rfl|rfl|rfl|rfl|rfl <;>
    simp [VARS]

/-- C6 (amended): the substitution pass leaves unknown tokens verbatim — a
template containing no recognized placeholder comes back from format_query
completely unchanged (no error), whatever the record, sanitize flag,
extension and short mode. -/
theorem c6_unknown_tokens_verbatim (song : Song) (template : List Char) (santitize : Bool)
    (file_extension : Option (List Char)) (short : Bool)
    (primary : List Char) (rest : List (List Char)) (h : song.artists = primary :: rest)
    (hnone : ∀ k ∈ VARS, containsSub k template = false) :
    format_query song template santitize file_extension short = .ok template := by
  have hout : containsSub keyOutputExt template = false := hnone keyOutputExt (by simp [VARS])
  have hll : containsSub keyListLength template = false :=
    hnone keyListLength (by simp [VARS])
  have hlp : containsSub keyListPosition template = false :=
    hnone keyListPosition (by simp [VARS])
  have hln : containsSub keyListName template = false := hnone keyListName (by simp [VARS])
  have he1 : elideOne template keyListLength song.list_length.isNone = template := by
    simp [elideOne, hll]
  have he2 : elideOne template keyListPosition song.list_position.isNone = template := by
    simp [elideOne, hlp]
  have he3 : elideOne template keyListName song.list_name.isNone = template := by
    simp [elideOne, hln]
  have hne1 : ¬(template = "/.\x7boutput-ext\x7d".data ∨ template = ".\x7boutput-ext\x7d".data) := by
    rintro (he | he) <;> rw [he] at hout <;> exact absurd hout (by decide)
  have hsub : ∀ fmts2 : List (List Char × Option (List Char)),
      (∀ kv ∈ fmts2, kv.1 ∈ VARS) → substAll fmts2 template = template := by
    intro fmts2 hkeys
    exact substAll_of_no_keys _ _ (fun kv hkv => hnone kv.1 (hkeys kv hkv))
  simp only [format_query, hout, Bool.false_and, Bool.false_eq_true, if_false, he1, he2, he3,
    h, if_neg hne1]
  cases santitize with
  | false =>
    simp only [Bool.false_eq_true, if_false]
    rw [hsub _ (formatsList_key_mem song primary _ file_extension short)]
  | true =>
    simp only [if_true]
    rw [hsub _ ?_]
    intro kv hkv
    rcases List.mem_map.mp hkv with ⟨kv0, hkv0, rfl⟩
    exact formatsList_key_mem song primary _ file_extension short kv0 hkv0

/-- Witness for the amended C6 on a concrete placeholder-free template. -/
theorem c6_unknown_tokens_verbatim_witness :
    format_query loveSong "hello".data true none false = .ok "hello".data :=
  c6_unknown_tokens_verbatim loveSong "hello".data true none false "Love Song".data
    ["Feat Artist".data] rfl (by decide)

/-- Concrete record for the C6 counterexample: its title is the literal text
of the album placeholder. -/
def c6song : Song :=
  { name := keyAlbum
    artists := ["A".data]
    album_name := "X".data
    album_artist := "AA".data
    genres := []
    disc_number := 1
    disc_count := 1
    duration := 200
    year := 2020
    date := "2020-01-01".data
    track_number := 3
    tracks_count := 10
    isrc := "ISRC123".data
    song_id := "id1".data
    publisher := "Pub".data
    list_name := none
    list_position := none
    list_length := none }

/-- C6 counterexample: substituting the title placeholder inserts the title
value (the literal album placeholder text), and the later album replacement
rewrites that value again — the result is the album name, not the title
value, so the pass is not simultaneous and substituted values are not
protected from later replacements. -/
theorem c6_counterexample :
    format_query c6song keyTitle false none false = .ok "X".data
    ∧ c6song.name = keyAlbum
    ∧ format_query c6song keyTitle false none false ≠ .ok c6song.name := by
  refine ⟨rfl, rfl, ?_⟩
  intro hcontra
  rw [show format_query c6song keyTitle false none false = Except.ok "X".data from rfl]
    at hcontra
  exact absurd (Except.ok.inj hcontra) (by decide)

/-- Path segments of a formatted string as pathlib produces them on POSIX:
split on the slash, drop empty pieces and single-dot pieces, and keep a
leading slash as a root segment. -/
def pathParts (s : List Char) : List (List Char) :=
  let segs := (splitOnChar '/' s).filter (fun p => !(p == []) && !(p == ['.']))
  if s.head? = some '/' then ['/'] :: segs else segs

/-- Path.name: the last segment; empty for an empty or root-only path. -/
def leafName (parts : List (List Char)) : List Char :=
  match parts.getLast? with
  | none => []
  | some p => if p = ['/'] then [] else p

/-- Matched tail of the segment-strip regex for a fixed start position: the
greedy dot-star (which cannot cross a newline) followed by one final
character that is not a dot, an asterisk or a dollar (the dollar is literal
inside the character class of the source pattern). -/
def findEnd : List Char → Option (List Char)
  | [] => none
  | c :: cs =>
    match (if c = Char.ofNat 10 then none else findEnd cs) with
    | some r => some (c :: r)
    | none => if c = '.' ∨ c = '*' ∨ c = '$' then none else some [c]

/-- re.search of the source segment pattern: try each start position (a
character that is not a dot or asterisk) left to right and return group 0 of
the first start that admits an end. -/
def regexSearchStrip : List Char → Option (List Char)
  | [] => none
  | c :: cs =>
    if c ≠ '.' ∧ c ≠ '*' then
      match findEnd cs with
      | some r => some (c :: r)
      | none => regexSearchStrip cs
    else regexSearchStrip cs

/-- The per-segment sanitization of create_file_name: replace the segment by
the regex match when there is one, except the reserved .spotdl segment which
passes through unmodified. -/
def sanitizePart (part : List Char) : List Char :=
  match regexSearchStrip part with
  | some m => if part = ".spotdl".data then part else m
  | none => part

/-- Dot-or-asterisk test used to state the spec wording of the strip. -/
def isDotStar (c : Char) : Bool := c == '.' || c == '*'

/-- The segment strip exactly as the spec words it (reference definition for
the refinement comparison): remove the leading and trailing dots and
asterisks, keep the interior. -/
def specStripSegment (p : List Char) : List Char :=
  ((p.dropWhile isDotStar).reverse.dropWhile isDotStar).reverse

/-- Modelled from the spec: the strict filesystem-portable character
restriction of yt-dlp sanitize_filename in restricted mode — keep ASCII
letters, digits, dot, underscore and hyphen, replace everything else with an
underscore. -/
def restrictChar (c : Char) : Char :=
  if (97 ≤ c.toNat && c.toNat ≤ 122) || (65 ≤ c.toNat && c.toNat ≤ 90) ||
      (48 ≤ c.toNat && c.toNat ≤ 57) || c == '.' || c == '_' || c == '-' then c
  else '_'

/-- The leaf transformation of restrict_filename: restricted
sanitize_filename (modelled from the spec), collapse
underscore-hyphen-underscore into a hyphen, fall back to a single underscore
when empty. -/
def restrictName (s : List Char) : List Char :=
  if replaceSub "_-_".data "-".data (s.map restrictChar) = [] then ['_']
  else replaceSub "_-_".data "-".data (s.map restrictChar)

/-- restrict_filename from the source lifted to the segment list:
with_name on the sanitized leaf (a path without segments is returned
unchanged; the source never reaches that corner because the normalized
template always produces a leaf). -/
def restrict_filename (parts : List (List Char)) : List (List Char) :=
  match parts.getLast? with
  | none => parts
  | some last => parts.dropLast ++ [restrictName last]

/-- The greedy whole-word truncation loop of create_file_name: words are
appended (with a trailing space each) while the running length stays under
240. -/
def truncWords : List (List Char) → List Char → List Char
  | [], acc => acc
  | w :: ws, acc =>
    if acc.length + w.length < 240 then truncWords ws (acc ++ w ++ [' '])
    else acc

/-- name.split on the space, the truncation loop, then str.strip. -/
def truncName (name : List Char) : List Char :=
  stripWs (truncWords (splitOnChar ' ' name) [])

/-- The in-place title mutation of create_file_name: the record title is
rebound to its truncation when longer than 240 characters. -/
def truncSong (song : Song) : Song :=
  if 240 < song.name.length then { song with name := truncName song.name } else song

/-- The short leaf template of the shortening protocol (single artist). -/
def shortLeafTpl : List Char := "\x7bartist\x7d - \x7btitle\x7d.\x7boutput-ext\x7d".data

/-- The minimal title-only template of the shortening protocol. -/
def titleTpl : List Char := "\x7btitle\x7d.\x7boutput-ext\x7d".data

/-- The template-shape normalization at the head of create_file_name: append
the default leaf as a subdirectory when no placeholder occurs in a non-empty
template, default the empty template, append the default leaf after a
trailing separator (the source tests the slash and, twice, the
two-backslash string — a single backslash does not count), and append the
extension placeholder when it is missing. -/
def normalizeTemplate (template : List Char) : List Char :=
  let t1 := if !(VARS.any (fun k => containsSub k template)) && !(template == []) then
      template ++ '/' :: defaultLeafTpl
    else template
  let t2 := if t1 = [] then defaultLeafTpl else t1
  let t3 := if closesWith "/".data t2 || closesWith [Char.ofNat 92, Char.ofNat 92] t2 then
      t2 ++ '/' :: defaultLeafTpl
    else t2
  if !closesWith (".\x7boutput-ext\x7d".data) t3 then t3 ++ ".\x7boutput-ext\x7d".data
  else t3

/-- One formatting attempt of create_file_name: format with sanitization on
and the concrete extension, parse into path segments, strip every segment. -/
def cfnAttempt (song : Song) (t ext : List Char) (short : Bool) :
    Except PyErr (List (List Char)) :=
  (format_query song t true (some ext) short).map
    (fun f => (pathParts f).map sanitizePart)

/-- create_file_name from the source: normalize the template, run one
attempt, return when the leaf name is under 255 characters (through the
restrict filter when asked), otherwise run the recursive shortening
protocol — retry in short mode, then with the short leaf template, then
(after rebinding the record title to its truncation) with the minimal
title-only template, and finally fail with the RecursionError.  The result
carries the final record because the source mutates song.name in place. -/
def create_file_name (song : Song) (template ext : List Char) (restrict short : Bool) :
    Except PyErr (List (List Char)) × Song :=
  match cfnAttempt song (normalizeTemplate template) ext short with
  | .error e => (.error e, song)
  | .ok sparts =>
    if (leafName sparts).length < 255 then
      ((if restrict then .ok (restrict_filename sparts) else .ok sparts), song)
    else if short then
      if normalizeTemplate template = shortLeafTpl then
        create_file_name (truncSong song) titleTpl ext restrict short
      else if normalizeTemplate template = titleTpl then
        (.error .recursionError, song)
      else
        create_file_name song shortLeafTpl ext restrict short
    else
      create_file_name song (normalizeTemplate template) ext restrict true
termination_by
  (if short then 0 else 4) +
    (if template = titleTpl then 0 else if template = shortLeafTpl then 1 else 2)
decreasing_by
  · rename_i hshort h1
    have ht : ¬(template = titleTpl) := by
      intro he
      rw [he] at h1
      exact absurd h1 (by decide)
    simp only [hshort, if_true, ht, ite_true, ite_false]
    split <;> omega
  · rename_i hshort h1 h2
    have ht1 : ¬(template = titleTpl) := by
      intro he
      rw [he] at h2
      exact h2 (by decide)
    have ht2 : ¬(template = shortLeafTpl) := by
      intro he
      rw [he] at h1
      exact h1 (by decide)
    have hne : ¬(shortLeafTpl = titleTpl) := by decide
    simp only [hshort, if_true, ht1, ht2, hne, ite_true, ite_false]
    omega
  · rename_i hshort
    have hL : (if normalizeTemplate template = titleTpl then 0
        else if normalizeTemplate template = shortLeafTpl then 1 else 2) ≤ 2 := by
      split
      · omega
      · split <;> omega
    simp only [hshort, if_true, ite_true, ite_false, Bool.false_eq_true, if_false]
    omega

/-- Fuel-indexed mirror of create_file_name: none when the fuel runs out
before the recursion finishes.  Fuel 4 always suffices (the protocol makes
at most 3 recursive attempts after the initial call). -/
def createFileNameFuel : Nat → Song → List Char → List Char → Bool → Bool →
    Option (Except PyErr (List (List Char)) × Song)
  | 0, _, _, _, _, _ => none
  | Nat.succ n, song, template, ext, restrict, short =>
    match cfnAttempt song (normalizeTemplate template) ext short with
    | .error e => some (.error e, song)
    | .ok sparts =>
      if (leafName sparts).length < 255 then
        some ((if restrict then .ok (restrict_filename sparts) else .ok sparts), song)
      else if short then
        if normalizeTemplate template = shortLeafTpl then
          createFileNameFuel n (truncSong song) titleTpl ext restrict short
        else if normalizeTemplate template = titleTpl then
          some (.error .recursionError, song)
        else
          createFileNameFuel n song shortLeafTpl ext restrict short
      else
        createFileNameFuel n song (normalizeTemplate template) ext restrict true

theorem cfn_fuel_agree (n : Nat) (song : Song) (template ext : List Char)
    (restrict short : Bool) (v : Except PyErr (List (List Char)) × Song)
    (h : createFileNameFuel n song template ext restrict short = some v) :
    create_file_name song template ext restrict short = v := by
  induction n generalizing song template short with
  | zero => simp [createFileNameFuel] at h
  | succ n ih =>
    rw [create_file_name]
    unfold createFileNameFuel at h
    cases hatt : cfnAttempt song (normalizeTemplate template) ext short with
    | error e =>
      simp only [hatt] at h ⊢
      exact Option.some.inj h
    | ok sparts =>
      simp only [hatt] at h ⊢
      by_cases hlen : (leafName sparts).length < 255
      · rw [if_pos hlen] at h ⊢
        exact Option.some.inj h
      · rw [if_neg hlen] at h ⊢
        cases short with
        | false =>
          simp only [Bool.false_eq_true, if_false] at h ⊢
          exact ih _ _ _ h
        | true =>
          simp only [if_true] at h ⊢
          by_cases h1 : normalizeTemplate template = shortLeafTpl
          · rw [if_pos h1] at h ⊢
            exact ih _ _ _ h
          · rw [if_neg h1] at h ⊢
            by_cases h2 : normalizeTemplate template = titleTpl
            · rw [if_pos h2] at h ⊢
              exact Option.some.inj h
            · rw [if_neg h2] at h ⊢
              exact ih _ _ _ h

theorem normalizeTemplate_titleTpl : normalizeTemplate titleTpl = titleTpl := by decide

theorem normalizeTemplate_shortLeafTpl : normalizeTemplate shortLeafTpl = shortLeafTpl := by
  decide

theorem cfnFuel_titleTpl_isSome (n : Nat) (song : Song) (ext : List Char) (restrict : Bool) :
    (createFileNameFuel (n + 1) song titleTpl ext restrict true).isSome := by
  unfold createFileNameFuel
  rw [normalizeTemplate_titleTpl]
  cases hatt : cfnAttempt song titleTpl ext true with
  | error e => simp
  | ok sparts =>
    simp only []
    by_cases hlen : (leafName sparts).length < 255
    · rw [if_pos hlen]
      simp
    · rw [if_neg hlen]
      simp only [if_true]
      rw [if_neg (by decide : ¬(titleTpl = shortLeafTpl))]
      simp

theorem cfnFuel_shortLeafTpl_isSome (n : Nat) (song : Song) (ext : List Char)
    (restrict : Bool) :
    (createFileNameFuel (n + 2) song shortLeafTpl ext restrict true).isSome := by
  show (createFileNameFuel (n + 1 + 1) song shortLeafTpl ext restrict true).isSome
  unfold createFileNameFuel
  rw [normalizeTemplate_shortLeafTpl]
  cases hatt : cfnAttempt song shortLeafTpl ext true with
  | error e => simp
  | ok sparts =>
    simp only []
    by_cases hlen : (leafName sparts).length < 255
    · rw [if_pos hlen]
      simp
    · rw [if_neg hlen]
      simp only [if_true]
      exact cfnFuel_titleTpl_isSome n (truncSong song) ext restrict

theorem cfnFuel_short_isSome (n : Nat) (song : Song) (template ext : List Char)
    (restrict : Bool) :
    (createFileNameFuel (n + 3) song template ext restrict true).isSome := by
  show (createFileNameFuel (n + 2 + 1) song template ext restrict true).isSome
  unfold createFileNameFuel
  cases hatt : cfnAttempt song (normalizeTemplate template) ext true with
  | error e => simp
  | ok sparts =>
    simp only []
    by_cases hlen : (leafName sparts).length < 255
    · rw [if_pos hlen]
      simp
    · rw [if_neg hlen]
      simp only [if_true]
      by_cases h1 : normalizeTemplate template = shortLeafTpl
      · rw [if_pos h1]
        exact cfnFuel_titleTpl_isSome (n + 1) (truncSong song) ext restrict
      · rw [if_neg h1]
        by_cases h2 : normalizeTemplate template = titleTpl
        · rw [if_pos h2]
          simp
        · rw [if_neg h2]
          exact cfnFuel_shortLeafTpl_isSome n song ext restrict

theorem cfnFuel_four_isSome (song : Song) (template ext : List Char)
    (restrict short : Bool) :
    (createFileNameFuel 4 song template ext restrict short).isSome := by
  cases short with
  | true => exact cfnFuel_short_isSome 1 song template ext restrict
  | false =>
    show (createFileNameFuel (3 + 1) song template ext restrict false).isSome
    unfold createFileNameFuel
    cases hatt : cfnAttempt song (normalizeTemplate template) ext false with
    | error e => simp
    | ok sparts =>
      simp only []
      by_cases hlen : (leafName sparts).length < 255
      · rw [if_pos hlen]
        simp
      · rw [if_neg hlen]
        simp only [Bool.false_eq_true, if_false]
        exact cfnFuel_short_isSome 0 song (normalizeTemplate template) ext restrict

theorem cfn_eq_fuel_four (song : Song) (template ext : List Char) (restrict short : Bool) :
    createFileNameFuel 4 song template ext restrict short
      = some (create_file_name song template ext restrict short) := by
  obtain ⟨v, hv⟩ :=
    Option.isSome_iff_exists.mp (cfnFuel_four_isSome song template ext restrict short)
  rw [hv, cfn_fuel_agree 4 song template ext restrict short v hv]

theorem leadsWith_length_le (pat : List Char) : ∀ s, leadsWith pat s = true →
    pat.length ≤ s.length := by
  induction pat with
  | nil => intro s _; simp
  | cons a ps ih =>
    intro s h
    cases s with
    | nil => simp [leadsWith] at h
    | cons b ss =>
      unfold leadsWith at h
      rw [Bool.and_eq_true] at h
      have := ih ss h.2
      simp only [List.length_cons]
      omega

theorem replGo_length_le (pat rep : List Char) (hrep : rep.length ≤ pat.length)
    (hpat : pat ≠ []) :
    ∀ s k, k ≤ s.length → (replGo pat rep s k).length ≤ s.length - k := by
  intro s
  induction s with
  | nil =>
    intro k _
    simp [replGo]
  | cons c cs ih =>
    intro k hk
    cases k with
    | succ k2 =>
      unfold replGo
      have h1 := ih k2 (by simp at hk; omega)
      simp only [List.length_cons]
      omega
    | zero =>
      unfold replGo
      by_cases hm : (!pat.isEmpty && leadsWith pat (c :: cs)) = true
      · rw [if_pos hm]
        rw [Bool.and_eq_true] at hm
        have hple := leadsWith_length_le pat (c :: cs) hm.2
        simp only [List.length_cons] at hple
        have hpos : 1 ≤ pat.length := by
          have := List.length_pos.mpr hpat
          omega
        have h2 := ih (pat.length - 1) (by omega)
        rw [List.length_append]
        simp only [List.length_cons]
        omega
      · rw [if_neg hm]
        have h2 := ih 0 (by omega)
        simp only [List.length_cons]
        omega

theorem replaceSub_length_le (pat rep s : List Char) (hrep : rep.length ≤ pat.length)
    (hpat : pat ≠ []) : (replaceSub pat rep s).length ≤ s.length := by
  have := replGo_length_le pat rep hrep hpat s 0 (by omega)
  simpa using this

theorem restrictName_length_le (s : List Char) :
    (restrictName s).length ≤ max s.length 1 := by
  unfold restrictName
  by_cases h : replaceSub "_-_".data "-".data (s.map restrictChar) = []
  · rw [if_pos h]
    simp
  · rw [if_neg h]
    have := replaceSub_length_le "_-_".data "-".data (s.map restrictChar)
      (by decide) (by decide)
    rw [List.length_map] at this
    omega

theorem leafName_restrict_lt (parts : List (List Char))
    (h : (leafName parts).length < 255) :
    (leafName (restrict_filename parts)).length < 255 := by
  unfold restrict_filename
  cases hl : parts.getLast? with
  | none => exact h
  | some last =>
    simp only []
    unfold leafName
    rw [List.getLast?_concat]
    show (if restrictName last = ['/'] then ([] : List Char) else restrictName last).length < 255
    have hb := restrictName_length_le last
    by_cases hslash : restrictName last = ['/']
    · rw [if_pos hslash]
      simp
    · rw [if_neg hslash]
      have h2 : (if last = ['/'] then ([] : List Char) else last).length < 255 := by
        unfold leafName at h
        rw [hl] at h
        exact h
      by_cases hsl2 : last = ['/']
      · rw [hsl2] at hb ⊢
        simp only [List.length_singleton, max_self] at hb
        omega
      · rw [if_neg hsl2] at h2
        omega

theorem cfnFuel_leaf_bound (n : Nat) : ∀ (song : Song) (template ext : List Char)
    (restrict short : Bool) (v : Except PyErr (List (List Char)) × Song)
    (parts : List (List Char)),
    createFileNameFuel n song template ext restrict short = some v →
    v.1 = Except.ok parts → (leafName parts).length < 255 := by
  induction n with
  | zero =>
    intro song template ext restrict short v parts h _
    simp [createFileNameFuel] at h
  | succ n ih =>
    intro song template ext restrict short v parts h hok
    unfold createFileNameFuel at h
    cases hatt : cfnAttempt song (normalizeTemplate template) ext short with
    | error e =>
      simp only [hatt] at h
      rw [← Option.some.inj h] at hok
      exact absurd hok (by simp)
    | ok sparts =>
      simp only [hatt] at h
      by_cases hlen : (leafName sparts).length < 255
      · rw [if_pos hlen] at h
        rw [← Option.some.inj h] at hok
        simp only [] at hok
        cases restrict with
        | false =>
          simp only [Bool.false_eq_true, if_false] at hok
          rw [← Except.ok.inj hok]
          exact hlen
        | true =>
          simp only [if_true] at hok
          rw [← Except.ok.inj hok]
          exact leafName_restrict_lt sparts hlen
      · rw [if_neg hlen] at h
        cases short with
        | false =>
          simp only [Bool.false_eq_true, if_false] at h
          exact ih _ _ _ _ _ _ _ h hok
        | true =>
          simp only [if_true] at h
          by_cases h1 : normalizeTemplate template = shortLeafTpl
          · rw [if_pos h1] at h
            exact ih _ _ _ _ _ _ _ h hok
          · rw [if_neg h1] at h
            by_cases h2 : normalizeTemplate template = titleTpl
            · rw [if_pos h2] at h
              rw [← Option.some.inj h] at hok
              exact absurd hok (by simp)
            · rw [if_neg h2] at h
              exact ih _ _ _ _ _ _ _ h hok

theorem cfnFuel_titleTpl_frame (n : Nat) : ∀ (song : Song) (ext : List Char)
    (restrict short : Bool) (v : Except PyErr (List (List Char)) × Song),
    createFileNameFuel n song titleTpl ext restrict short = some v → v.2 = song := by
  induction n with
  | zero =>
    intro song ext restrict short v h
    simp [createFileNameFuel] at h
  | succ n ih =>
    intro song ext restrict short v h
    unfold createFileNameFuel at h
    rw [normalizeTemplate_titleTpl] at h
    cases hatt : cfnAttempt song titleTpl ext short with
    | error e =>
      simp only [hatt] at h
      rw [← Option.some.inj h]
    | ok sparts =>
      simp only [hatt] at h
      by_cases hlen : (leafName sparts).length < 255
      · rw [if_pos hlen] at h
        rw [← Option.some.inj h]
      · rw [if_neg hlen] at h
        cases short with
        | false =>
          simp only [Bool.false_eq_true, if_false] at h
          exact ih _ _ _ _ _ h
        | true =>
          simp only [if_true] at h
          rw [← Option.some.inj h]

theorem cfnFuel_frame (n : Nat) : ∀ (song : Song) (template ext : List Char)
    (restrict short : Bool) (v : Except PyErr (List (List Char)) × Song),
    createFileNameFuel n song template ext restrict short = some v →
    v.2 = song ∨ (240 < song.name.length ∧ v.2 = { song with name := truncName song.name }) := by
  induction n with
  | zero =>
    intro song template ext restrict short v h
    simp [createFileNameFuel] at h
  | succ n ih =>
    intro song template ext restrict short v h
    unfold createFileNameFuel at h
    cases hatt : cfnAttempt song (normalizeTemplate template) ext short with
    | error e =>
      simp only [hatt] at h
      exact Or.inl (by rw [← Option.some.inj h])
    | ok sparts =>
      simp only [hatt] at h
      by_cases hlen : (leafName sparts).length < 255
      · rw [if_pos hlen] at h
        exact Or.inl (by rw [← Option.some.inj h])
      · rw [if_neg hlen] at h
        cases short with
        | false =>
          simp only [Bool.false_eq_true, if_false] at h
          exact ih _ _ _ _ _ _ h
        | true =>
          simp only [if_true] at h
          by_cases h1 : normalizeTemplate template = shortLeafTpl
          · rw [if_pos h1] at h
            have hframe := cfnFuel_titleTpl_frame n _ _ _ _ _ h
            unfold truncSong at hframe
            by_cases hbig : 240 < song.name.length
            · rw [if_pos hbig] at hframe
              exact Or.inr ⟨hbig, hframe⟩
            · rw [if_neg hbig] at hframe
              exact Or.inl hframe
          · rw [if_neg h1] at h
            by_cases h2 : normalizeTemplate template = titleTpl
            · rw [if_pos h2] at h
              exact Or.inl (by rw [← Option.some.inj h])
            · rw [if_neg h2] at h
              exact ih _ _ _ _ _ _ h

theorem format_query_ok_of_artists (song : Song) (t : List Char) (san : Bool)
    (ext : List Char) (short : Bool) (primary : List Char) (rest : List (List Char))
    (h : song.artists = primary :: rest) :
    ∃ out, format_query song t san (some ext) short = Except.ok out := by
  unfold format_query
  rw [if_neg (by simp)]
  rw [h]
  exact ⟨_, rfl⟩

theorem cfnAttempt_ok_of_artists (song : Song) (t ext : List Char) (short : Bool)
    (primary : List Char) (rest : List (List Char)) (h : song.artists = primary :: rest) :
    ∃ sparts, cfnAttempt song t ext short = Except.ok sparts := by
  obtain ⟨out, hout⟩ := format_query_ok_of_artists song t true ext short primary rest h
  refine ⟨(pathParts out).map sanitizePart, ?_⟩
  rw [cfnAttempt, hout]
  rfl

theorem truncSong_artists (song : Song) : (truncSong song).artists = song.artists := by
  unfold truncSong
  split <;> rfl

theorem cfnFuel_dichotomy (n : Nat) : ∀ (song : Song) (template ext : List Char)
    (restrict short : Bool) (v : Except PyErr (List (List Char)) × Song)
    (primary : List Char) (rest : List (List Char)),
    song.artists = primary :: rest →
    createFileNameFuel n song template ext restrict short = some v →
    (∃ parts, v.1 = Except.ok parts) ∨ v.1 = Except.error PyErr.recursionError := by
  induction n with
  | zero =>
    intro song template ext restrict short v primary rest _ h
    simp [createFileNameFuel] at h
  | succ n ih =>
    intro song template ext restrict short v primary rest harts h
    unfold createFileNameFuel at h
    obtain ⟨sparts, hatt⟩ :=
      cfnAttempt_ok_of_artists song (normalizeTemplate template) ext short primary rest harts
    simp only [hatt] at h
    by_cases hlen : (leafName sparts).length < 255
    · rw [if_pos hlen] at h
      rw [← Option.some.inj h]
      cases restrict with
      | false => exact Or.inl ⟨sparts, by simp⟩
      | true => exact Or.inl ⟨restrict_filename sparts, by simp⟩
    · rw [if_neg hlen] at h
      cases short with
      | false =>
        simp only [Bool.false_eq_true, if_false] at h
        exact ih _ _ _ _ _ _ primary rest harts h
      | true =>
        simp only [if_true] at h
        by_cases h1 : normalizeTemplate template = shortLeafTpl
        · rw [if_pos h1] at h
          refine ih _ _ _ _ _ _ primary rest ?_ h
          rw [truncSong_artists]
          exact harts
        · rw [if_neg h1] at h
          by_cases h2 : normalizeTemplate template = titleTpl
          · rw [if_pos h2] at h
            rw [← Option.some.inj h]
            exact Or.inr rfl
          · rw [if_neg h2] at h
            exact ih _ _ _ _ _ _ primary rest harts h

theorem truncWords_length_le (ws : List (List Char)) : ∀ acc : List Char,
    acc.length ≤ 240 → (truncWords ws acc).length ≤ 240 := by
  induction ws with
  | nil =>
    intro acc h
    exact h
  | cons w ws ih =>
    intro acc h
    unfold truncWords
    by_cases hc : acc.length + w.length < 240
    · rw [if_pos hc]
      apply ih
      simp only [List.length_append, List.length_cons, List.length_nil]
      omega
    · rw [if_neg hc]
      exact h

theorem truncName_length_le (name : List Char) : (truncName name).length ≤ 240 := by
  unfold truncName stripWs
  have h1 : (truncWords (splitOnChar ' ' name) []).length ≤ 240 :=
    truncWords_length_le _ [] (by simp)
  have h2 : ((truncWords (splitOnChar ' ' name) []).dropWhile isPyWs).length
      ≤ (truncWords (splitOnChar ' ' name) []).length :=
    ((List.dropWhile_suffix isPyWs).sublist).length_le
  have h3 : (((truncWords (splitOnChar ' ' name) []).dropWhile isPyWs).reverse.dropWhile
        isPyWs).length
      ≤ ((truncWords (splitOnChar ' ' name) []).dropWhile isPyWs).reverse.length :=
    ((List.dropWhile_suffix isPyWs).sublist).length_le
  simp only [List.length_reverse] at h3 ⊢
  omega

/-- Concrete record with a short title, used by several witnesses. -/
def tinySong : Song :=
  { name := "T".data
    artists := ["A".data]
    album_name := "Album".data
    album_artist := "A".data
    genres := []
    disc_number := 1
    disc_count := 1
    duration := 200
    year := 2020
    date := "2020-01-01".data
    track_number := 3
    tracks_count := 10
    isrc := "ISRC123".data
    song_id := "id1".data
    publisher := "Pub".data
    list_name := none
    list_position := none
    list_length := none }

/-- Concrete record whose 241-character single-word title forces the full
shortening protocol, including the title truncation. -/
def bigSong : Song :=
  { name := List.replicate 241 'a'
    artists := ["A".data]
    album_name := "Album".data
    album_artist := "A".data
    genres := []
    disc_number := 1
    disc_count := 1
    duration := 200
    year := 2020
    date := "2020-01-01".data
    track_number := 3
    tracks_count := 10
    isrc := "ISRC123".data
    song_id := "id1".data
    publisher := "Pub".data
    list_name := none
    list_position := none
    list_length := none }

/-- C1: whenever create_file_name returns a path rather than an error, the
leaf name of that path is strictly shorter than 255 characters — an
over-long leaf always triggers the shortening protocol instead of being
returned truncated. -/
theorem c1_leaf_bound (song : Song) (template ext : List Char) (restrict short : Bool)
    (parts : List (List Char))
    (h : (create_file_name song template ext restrict short).1 = Except.ok parts) :
    (leafName parts).length < 255 := by
  have hfuel := cfn_eq_fuel_four song template ext restrict short
  exact cfnFuel_leaf_bound 4 song template ext restrict short _ parts hfuel h

/-- Witness for C1 on a concrete record and the empty template. -/
theorem c1_leaf_bound_witness : (leafName ["A - T.mp3".data]).length < 255 := by
  apply c1_leaf_bound tinySong [] "mp3".data false false
  rw [cfn_fuel_agree 4 tinySong [] "mp3".data false false
    (Except.ok ["A - T.mp3".data], tinySong) rfl]

/-- C2: create_file_name terminates within the bounded shortening protocol —
fuel 4 (the initial call plus at most 3 recursive attempts) always computes
the total function — and, for a record with a non-empty artist list, the
call either returns a path whose leaf is under 255 characters or fails with
the terminal RecursionError; the returned record title is either untouched
or capped by the whole-word truncation at no more than 240 characters. -/
theorem c2_shortening_protocol (song : Song) (template ext : List Char)
    (restrict short : Bool) (primary : List Char) (rest : List (List Char))
    (h : song.artists = primary :: rest) :
    createFileNameFuel 4 song template ext restrict short
        = some (create_file_name song template ext restrict short)
    ∧ ((∃ parts, (create_file_name song template ext restrict short).1 = Except.ok parts
          ∧ (leafName parts).length < 255)
        ∨ (create_file_name song template ext restrict short).1
            = Except.error PyErr.recursionError)
    ∧ ((create_file_name song template ext restrict short).2.name = song.name
        ∨ ((create_file_name song template ext restrict short).2.name = truncName song.name
            ∧ (create_file_name song template ext restrict short).2.name.length ≤ 240)) := by
  have hfuel := cfn_eq_fuel_four song template ext restrict short
  refine ⟨hfuel, ?_, ?_⟩
  · rcases cfnFuel_dichotomy 4 song template ext restrict short _ primary rest h hfuel with
      ⟨parts, hp⟩ | he
    · exact Or.inl ⟨parts, hp,
        cfnFuel_leaf_bound 4 song template ext restrict short _ parts hfuel hp⟩
    · exact Or.inr he
  · rcases cfnFuel_frame 4 song template ext restrict short _ hfuel with hf | ⟨_, hf⟩
    · exact Or.inl (by rw [hf])
    · refine Or.inr ⟨by rw [hf], ?_⟩
      rw [hf]
      exact truncName_length_le song.name

/-- Witness for C2 on a concrete record. -/
theorem c2_shortening_protocol_witness :
    createFileNameFuel 4 tinySong [] "mp3".data false false
        = some (create_file_name tinySong [] "mp3".data false false)
    ∧ ((∃ parts, (create_file_name tinySong [] "mp3".data false false).1 = Except.ok parts
          ∧ (leafName parts).length < 255)
        ∨ (create_file_name tinySong [] "mp3".data false false).1
            = Except.error PyErr.recursionError)
    ∧ ((create_file_name tinySong [] "mp3".data false false).2.name = tinySong.name
        ∨ ((create_file_name tinySong [] "mp3".data false false).2.name
              = truncName tinySong.name
            ∧ (create_file_name tinySong [] "mp3".data false false).2.name.length ≤ 240)) :=
  c2_shortening_protocol tinySong [] "mp3".data false false "A".data [] rfl

/-- C5 (amended): create_file_name leaves every field of the input record
unchanged except possibly the title, which the shortening protocol may
rebind to the whole-word truncation of the original title (a mutation that
is visible to the caller). -/
theorem c5_frame_property (song : Song) (template ext : List Char) (restrict short : Bool) :
    (create_file_name song template ext restrict short).2.artists = song.artists
    ∧ (create_file_name song template ext restrict short).2.album_name = song.album_name
    ∧ (create_file_name song template ext restrict short).2.album_artist = song.album_artist
    ∧ (create_file_name song template ext restrict short).2.genres = song.genres
    ∧ (create_file_name song template ext restrict short).2.disc_number = song.disc_number
    ∧ (create_file_name song template ext restrict short).2.disc_count = song.disc_count
    ∧ (create_file_name song template ext restrict short).2.duration = song.duration
    ∧ (create_file_name song template ext restrict short).2.year = song.year
    ∧ (create_file_name song template ext restrict short).2.date = song.date
    ∧ (create_file_name song template ext restrict short).2.track_number = song.track_number
    ∧ (create_file_name song template ext restrict short).2.tracks_count = song.tracks_count
    ∧ (create_file_name song template ext restrict short).2.isrc = song.isrc
    ∧ (create_file_name song template ext restrict short).2.song_id = song.song_id
    ∧ (create_file_name song template ext restrict short).2.publisher = song.publisher
    ∧ (create_file_name song template ext restrict short).2.list_name = song.list_name
    ∧ (create_file_name song template ext restrict short).2.list_position = song.list_position
    ∧ (create_file_name song template ext restrict short).2.list_length = song.list_length
    ∧ ((create_file_name song template ext restrict short).2.name = song.name
        ∨ (create_file_name song template ext restrict short).2.name = truncName song.name) := by
  have hfuel := cfn_eq_fuel_four song template ext restrict short
  rcases cfnFuel_frame 4 song template ext restrict short _ hfuel with hf | ⟨_, hf⟩
  · rw [hf]
    exact ⟨rfl, rfl, rfl, rfl, rfl, rfl, rfl, rfl, rfl, rfl, rfl, rfl, rfl, rfl, rfl, rfl,
      rfl, Or.inl rfl⟩
  · rw [hf]
    exact ⟨rfl, rfl, rfl, rfl, rfl, rfl, rfl, rfl, rfl, rfl, rfl, rfl, rfl, rfl, rfl, rfl,
      rfl, Or.inr rfl⟩

/-- C5 counterexample: on a record whose 241-character title forces the
shortening protocol, create_file_name returns with the record title changed
(here truncated to the empty string, the title being one unbreakable word) —
so the operation is not pure in its input record. -/
theorem c5_counterexample :
    create_file_name bigSong [] "verylongext".data false false
      = (Except.ok ["verylongext".data], { bigSong with name := [] })
    ∧ (create_file_name bigSong [] "verylongext".data false false).2.name ≠ bigSong.name := by
  have heq := cfn_fuel_agree 4 bigSong [] "verylongext".data false false
    (Except.ok ["verylongext".data], { bigSong with name := [] }) rfl
  refine ⟨heq, ?_⟩
  rw [heq]
  intro hc
  have hc2 : ([] : List Char) = List.replicate 241 'a' := hc
  have hlen := congrArg List.length hc2
  simp at hlen

theorem dropWhile_append_of_exists (p : Char → Bool) (xs ys : List Char)
    (h : ∃ x ∈ xs, p x = false) : (xs ++ ys).dropWhile p = xs.dropWhile p ++ ys := by
  induction xs with
  | nil =>
    rcases h with ⟨x, hx, _⟩
    simp at hx
  | cons a as ih =>
    rw [List.cons_append, List.dropWhile_cons, List.dropWhile_cons]
    by_cases ha : p a
    · rw [if_pos ha, if_pos ha]
      apply ih
      rcases h with ⟨x, hx, hpx⟩
      rcases List.mem_cons.mp hx with rfl | hx2
      · rw [ha] at hpx
        cases hpx
      · exact ⟨x, hx2, hpx⟩
    · rw [if_neg ha, if_neg ha]
      rfl

theorem dropWhile_append_all (p : Char → Bool) (xs ys : List Char)
    (h : ∀ x ∈ xs, p x = true) : (xs ++ ys).dropWhile p = ys.dropWhile p := by
  induction xs with
  | nil => rfl
  | cons a as ih =>
    rw [List.cons_append, List.dropWhile_cons, if_pos (h a (List.mem_cons_self a as))]
    exact ih (fun x hx => h x (List.mem_cons_of_mem a hx))

theorem dropTrailing_cons_of_exists (c : Char) (cs : List Char)
    (h : ∃ d ∈ cs, isDotStar d = false) :
    ((c :: cs).reverse.dropWhile isDotStar).reverse
      = c :: (cs.reverse.dropWhile isDotStar).reverse := by
  rw [List.reverse_cons]
  rw [dropWhile_append_of_exists isDotStar cs.reverse [c]
    (by rcases h with ⟨d, hd, hdf⟩; exact ⟨d, List.mem_reverse.mpr hd, hdf⟩)]
  rw [List.reverse_append]
  rfl

theorem dropTrailing_eq_single (c : Char) (cs : List Char)
    (hcs : ∀ d ∈ cs, isDotStar d = true) (hc : isDotStar c = false) :
    ((c :: cs).reverse.dropWhile isDotStar).reverse = [c] := by
  rw [List.reverse_cons]
  rw [dropWhile_append_all isDotStar cs.reverse [c]
    (fun d hd => hcs d (List.mem_reverse.mp hd))]
  rw [List.dropWhile_cons]
  rw [if_neg (by simp [hc])]
  rfl

theorem findEnd_none_of_all_dotstar (cs : List Char) (h : ∀ c ∈ cs, isDotStar c = true) :
    findEnd cs = none := by
  induction cs with
  | nil => rfl
  | cons c cs ih =>
    unfold findEnd
    have hc := h c (List.mem_cons_self c cs)
    have hcn : ¬(c = Char.ofNat 10) := by
      intro he
      rw [he] at hc
      exact absurd hc (by decide)
    rw [if_neg hcn, ih (fun d hd => h d (List.mem_cons_of_mem c hd))]
    simp only []
    rw [if_pos]
    simp only [isDotStar, Bool.or_eq_true, beq_iff_eq] at hc
    rcases hc with hc | hc
    · exact Or.inl hc
    · exact Or.inr (Or.inl hc)

theorem findEnd_eq (cs : List Char) (hnl : Char.ofNat 10 ∉ cs) (hds : '$' ∉ cs)
    (hex : ∃ d ∈ cs, isDotStar d = false) :
    findEnd cs = some ((cs.reverse.dropWhile isDotStar).reverse) := by
  induction cs with
  | nil =>
    rcases hex with ⟨d, hd, _⟩
    simp at hd
  | cons c cs ih =>
    unfold findEnd
    have hcn : ¬(c = Char.ofNat 10) := by
      intro he
      exact hnl (he ▸ List.mem_cons_self c cs)
    rw [if_neg hcn]
    by_cases hcs : ∃ d ∈ cs, isDotStar d = false
    · rw [ih (fun hmem => hnl (List.mem_cons_of_mem c hmem))
        (fun hmem => hds (List.mem_cons_of_mem c hmem)) hcs]
      simp only []
      rw [dropTrailing_cons_of_exists c cs hcs]
    · push_neg at hcs
      have hall : ∀ d ∈ cs, isDotStar d = true := by
        intro d hd
        have := hcs d hd
        cases hv : isDotStar d
        · exact absurd hv this
        · rfl
      rw [findEnd_none_of_all_dotstar cs hall]
      simp only []
      have hc : isDotStar c = false := by
        rcases hex with ⟨d, hd, hdf⟩
        rcases List.mem_cons.mp hd with rfl | hd2
        · exact hdf
        · rw [hall d hd2] at hdf
          cases hdf
      rw [if_neg]
      · rw [dropTrailing_eq_single c cs hall hc]
      · simp only [isDotStar, Bool.or_eq_false_iff, beq_eq_false_iff_ne] at hc
        rintro (he | he | he)
        · exact hc.1 he
        · exact hc.2 he
        · exact hds (he ▸ List.mem_cons_self c cs)

theorem regexSearchStrip_eq (p : List Char) (hnl : Char.ofNat 10 ∉ p) (hds : '$' ∉ p)
    (hlen : 2 ≤ (specStripSegment p).length) :
    regexSearchStrip p = some (specStripSegment p) := by
  induction p with
  | nil => simp [specStripSegment] at hlen
  | cons c cs ih =>
    by_cases hc : isDotStar c = true
    · have hspec : specStripSegment (c :: cs) = specStripSegment cs := by
        unfold specStripSegment
        rw [List.dropWhile_cons, if_pos hc]
      unfold regexSearchStrip
      rw [if_neg]
      · rw [hspec] at hlen ⊢
        exact ih (fun hmem => hnl (List.mem_cons_of_mem c hmem))
          (fun hmem => hds (List.mem_cons_of_mem c hmem)) hlen
      · simp only [isDotStar, Bool.or_eq_true, beq_iff_eq] at hc
        rcases hc with hc | hc
        · intro hcon
          exact hcon.1 hc
        · intro hcon
          exact hcon.2 hc
    · have hc2 : isDotStar c = false := by
        cases hv : isDotStar c
        · rfl
        · exact absurd hv hc
      have hdrop : (c :: cs).dropWhile isDotStar = c :: cs := by
        rw [List.dropWhile_cons, if_neg (by simp [hc2])]
      have hne : c ≠ '.' ∧ c ≠ '*' := by
        simp only [isDotStar, Bool.or_eq_false_iff, beq_eq_false_iff_ne] at hc2
        exact hc2
      by_cases hcs : ∃ d ∈ cs, isDotStar d = false
      · unfold regexSearchStrip
        rw [if_pos hne]
        rw [findEnd_eq cs (fun hmem => hnl (List.mem_cons_of_mem c hmem))
          (fun hmem => hds (List.mem_cons_of_mem c hmem)) hcs]
        simp only []
        unfold specStripSegment
        rw [hdrop]
        rw [dropTrailing_cons_of_exists c cs hcs]
      · exfalso
        push_neg at hcs
        have hall : ∀ d ∈ cs, isDotStar d = true := by
          intro d hd
          have := hcs d hd
          cases hv : isDotStar d
          · exact absurd hv this
          · rfl
        have hone : specStripSegment (c :: cs) = [c] := by
          unfold specStripSegment
          rw [hdrop]
          exact dropTrailing_eq_single c cs hall hc2
        rw [hone] at hlen
        simp at hlen

/-- C8 (amended): for every path segment that contains no newline and no
dollar sign and whose stripped form keeps at least two characters, the
per-segment step of create_file_name strips exactly the leading and
trailing dots and asterisks while preserving the interior, except the
literal .spotdl segment which passes through unmodified.  (Outside these
hypotheses the source regex diverges from that description — a segment
whose stripped form would be shorter than two characters is returned
whole, and a trailing dollar is also stripped — see the counterexample.) -/
theorem c8_segment_strip (p : List Char) (hnl : Char.ofNat 10 ∉ p) (hds : '$' ∉ p)
    (hlen : 2 ≤ (specStripSegment p).length) :
    sanitizePart p = if p = ".spotdl".data then p else specStripSegment p := by
  unfold sanitizePart
  rw [regexSearchStrip_eq p hnl hds hlen]

/-- Witness for the amended C8 on a segment with leading and trailing
dots and asterisks around a preserved interior. -/
theorem c8_segment_strip_witness : sanitizePart "..a b*.".data = "a b".data := by
  have h := c8_segment_strip "..a b*.".data (by decide) (by decide) (by decide)
  rw [h]
  rfl

/-- C8 counterexample: the source regex cannot produce a match shorter than
two characters, so the segment made of one letter and a trailing dot passes
through completely unstripped, while the claim demands the trailing dot
removed; the first conjunct exhibits the unstripped segment in an actual
create_file_name result. -/
theorem c8_counterexample :
    (create_file_name tinySong ("a./".data ++ keyTitle) "mp3".data false false).1
      = Except.ok ["a.".data, "T.mp3".data]
    ∧ sanitizePart "a.".data = "a.".data
    ∧ specStripSegment "a.".data = "a".data
    ∧ sanitizePart "a.".data ≠ specStripSegment "a.".data := by
  refine ⟨?_, rfl, rfl, by decide⟩
  rw [cfn_fuel_agree 4 tinySong ("a./".data ++ keyTitle) "mp3".data false false
    (Except.ok ["a.".data, "T.mp3".data], tinySong) rfl]
